import Mathlib

/-!
# Bloggernetes: the in-memory store and the record converter

A shallow embedding of `internal/post.go`, `internal/page.go`, `internal/store.go` and the
conversion and handler functions of `internal/controller.go`.

Modelling conventions.

* A Go `map[string]*T` is a `GoMap T`: a list of key/value entries whose keys are pairwise
  distinct.  The position of an entry in the list carries no meaning; a `range` loop over a map
  visits the entries in an order Go leaves unspecified, which is a `RangeOrder` argument of every
  function that ranges over a map.
* `sort.Sort` belongs to the Go standard library.  It is a `SortImpl` argument: a function on
  slices together with the guarantee the library documents (the result is a rearrangement of the
  input and, for a `Less` that is a transitive ordering, no element is `Less` than an earlier one).
  `goInsertionSort` is the instance the library actually runs on slices of at most 12 elements.
* `time.Time` is the instant it denotes; `time.Parse(time.RFC3339, ·)` is a `parse` argument of
  the converter.
* The mutex of the store and the log calls of the handlers have no counterpart: every function
  is the sequential effect of one call on the state.
-/

namespace Bloggernetes

/-! ## `time.Time` -/

/-- An instant, as a count of nanoseconds since the Unix epoch. -/
structure Time where
  unixNano : Int
  deriving DecidableEq, Repr

/-- `t.After(u)`: the instant `t` is strictly later than `u`. -/
def Time.After (t u : Time) : Bool := decide (u.unixNano < t.unixNano)

/-! ## `post.go`, `page.go` -/

/-- `BlogPost` of `post.go`; `UpdatedDate` is a nilable pointer. -/
structure BlogPost where
  ID : String
  Title : String
  MetaDescription : String
  Body : String
  Author : String
  Tags : List String
  AuthoredDate : Time
  UpdatedDate : Option Time
  deriving DecidableEq, Repr

/-- `BlogPage` of `page.go`. -/
structure BlogPage where
  ID : String
  Title : String
  Content : String
  Order : Int
  deriving DecidableEq, Repr

/-- `BlogPosts.Less`: the post at `i` is authored after the post at `j`. -/
def BlogPosts.Less (a b : BlogPost) : Bool := a.AuthoredDate.After b.AuthoredDate

/-- `BlogPages.Less`: the page at `i` has a smaller `Order` than the page at `j`. -/
def BlogPages.Less (a b : BlogPage) : Bool := decide (a.Order < b.Order)

/-! ## `sort.Sort` -/

/-- What the documentation of `sort.Interface` asks of `Less`: a transitive ordering, that is
`Less` is transitive and so is its negation, and no element sorts before itself. -/
structure LessContract {α : Type} (less : α → α → Bool) : Prop where
  irrefl : ∀ a, less a a = false
  trans : ∀ a b c, less a b = true → less b c = true → less a c = true
  negTrans : ∀ a b c, less a b = false → less b c = false → less a c = false

/-- An implementation of `sort.Sort` with the guarantee of the library: the result rearranges
the input, and when `Less` meets `LessContract` no element is `Less` than one before it. -/
structure SortImpl where
  run : {α : Type} → (α → α → Bool) → List α → List α
  perm : ∀ {α : Type} (less : α → α → Bool) (l : List α), (run less l).Perm l
  sorted : ∀ {α : Type} (less : α → α → Bool) (l : List α), LessContract less →
    (run less l).Pairwise (fun a b => less b a = false)

/-- Inner loop of the library's insertion sort: `x` is swapped leftwards past every neighbour it
is `less` than.  The sorted prefix is given nearest neighbour first. -/
def slideLeft {α : Type} (less : α → α → Bool) (x : α) : List α → List α
  | [] => [x]
  | e :: rest => if less x e then e :: slideLeft less x rest else x :: e :: rest

/-- The library's insertion sort (`insertionSort` of `sort/zsortinterface.go`), which `sort.Sort`
runs on a slice of at most 12 elements: elements are taken left to right and slid into the
sorted prefix. -/
def insertionSortGo {α : Type} (less : α → α → Bool) (l : List α) : List α :=
  (l.foldl (fun sortedRev x => slideLeft less x sortedRev) []).reverse

/-- `SortByAuthoredDate`: `sort.Sort(BlogPosts(posts))`. -/
def SortByAuthoredDate (srt : SortImpl) (posts : List BlogPost) : List BlogPost :=
  srt.run BlogPosts.Less posts

/-- `SortByOrder`: `sort.Sort(BlogPages(pages))`. -/
def SortByOrder (srt : SortImpl) (pages : List BlogPage) : List BlogPage :=
  srt.run BlogPages.Less pages

/-! ## Go maps -/

/-- A Go `map[string]*V`: entries with pairwise distinct keys. -/
structure GoMap (V : Type) where
  entries : List (String × V)
  nodupKeys : (entries.map Prod.fst).Nodup

namespace GoMap

variable {V : Type}

/-- `make(map[string]*V)`. -/
def empty : GoMap V := ⟨[], List.nodup_nil⟩

/-- `v, ok := m[k]`. -/
def get (m : GoMap V) (k : String) : Option V :=
  (m.entries.find? (fun e => e.1 == k)).map Prod.snd

/-- The entries of `m` under a key other than `k`. -/
def others (m : GoMap V) (k : String) : List (String × V) :=
  m.entries.filter (fun e => e.1 != k)

theorem others_nodup (m : GoMap V) (k : String) : ((m.others k).map Prod.fst).Nodup :=
  m.nodupKeys.sublist ((List.filter_sublist _).map _)

theorem not_mem_others_keys (m : GoMap V) (k : String) : k ∉ (m.others k).map Prod.fst := by
  simp [others]

/-- `delete(m, k)`. -/
def delete (m : GoMap V) (k : String) : GoMap V :=
  ⟨m.others k, m.others_nodup k⟩

/-- `m[k] = v`. -/
def set (m : GoMap V) (k : String) (v : V) : GoMap V :=
  ⟨(k, v) :: m.others k, List.nodup_cons.2 ⟨m.not_mem_others_keys k, m.others_nodup k⟩⟩

/-- The values of the map, in entry order. -/
def values (m : GoMap V) : List V := m.entries.map Prod.snd

end GoMap

/-- The order in which one `range` loop visits the entries of a map: some rearrangement. -/
structure RangeOrder (V : Type) where
  visit : List (String × V) → List (String × V)
  perm : ∀ l, (visit l).Perm l

/-- The traversal that visits the entries as they are listed. -/
def RangeOrder.asListed (V : Type) : RangeOrder V := ⟨id, fun l => List.Perm.refl l⟩

/-- The traversal that visits the entries last to first. -/
def RangeOrder.backwards (V : Type) : RangeOrder V := ⟨List.reverse, List.reverse_perm⟩

/-! ## `store.go` -/

/-- `Store` of `store.go`, without its mutex. -/
structure Store where
  posts : GoMap BlogPost
  pages : GoMap BlogPage

/-- `NewStore`. -/
def NewStore : Store := ⟨GoMap.empty, GoMap.empty⟩

namespace Store

/-- `AddOrUpdatePost`: `s.posts[post.ID] = post`. -/
def AddOrUpdatePost (s : Store) (post : BlogPost) : Store :=
  { s with posts := s.posts.set post.ID post }

/-- `DeletePost`: `delete(s.posts, id)`. -/
def DeletePost (s : Store) (id : String) : Store :=
  { s with posts := s.posts.delete id }

/-- `GetPost`: the post and the `exists` flag of `s.posts[id]`. -/
def GetPost (s : Store) (id : String) : Option BlogPost := s.posts.get id

/-- `GetAllPosts`: the values of the map in visiting order, then `SortByAuthoredDate`. -/
def GetAllPosts (srt : SortImpl) (ord : RangeOrder BlogPost) (s : Store) : List BlogPost :=
  SortByAuthoredDate srt ((ord.visit s.posts.entries).map Prod.snd)

/-- The inner loop of `GetPostsByTag`: scan `Tags` and stop at the first element equal to
`tag`. -/
def hasTag (tag : String) : List String → Bool
  | [] => false
  | t :: ts => if t == tag then true else hasTag tag ts

/-- `GetPostsByTag`: the visited posts with a tag equal to `tag`, each appended once, then
`SortByAuthoredDate`. -/
def GetPostsByTag (srt : SortImpl) (ord : RangeOrder BlogPost) (s : Store) (tag : String) :
    List BlogPost :=
  SortByAuthoredDate srt
    (((ord.visit s.posts.entries).map Prod.snd).filter (fun post => hasTag tag post.Tags))

/-- `GetPostsByAuthor`: the visited posts whose `Author` is `author`, then
`SortByAuthoredDate`. -/
def GetPostsByAuthor (srt : SortImpl) (ord : RangeOrder BlogPost) (s : Store) (author : String) :
    List BlogPost :=
  SortByAuthoredDate srt
    (((ord.visit s.posts.entries).map Prod.snd).filter (fun post => post.Author == author))

/-- The inner loop of `GetAllTags`: `tagMap[tag] = struct{}{}` for every tag of one post. -/
def addTags (tagMap : GoMap Unit) (tags : List String) : GoMap Unit :=
  tags.foldl (fun m tag => m.set tag ()) tagMap

/-- `GetAllTags`: the tags of the visited posts are put in a set, and the keys of the set are
returned in the order a second `range` loop visits them. -/
def GetAllTags (ordPosts : RangeOrder BlogPost) (ordTags : RangeOrder Unit) (s : Store) :
    List String :=
  let tagMap := ((ordPosts.visit s.posts.entries).map Prod.snd).foldl
    (fun m post => addTags m post.Tags) GoMap.empty
  (ordTags.visit tagMap.entries).map Prod.fst

/-- `GetAllAuthors`: the authors of the visited posts are put in a set, and the keys of the set
are returned in the order a second `range` loop visits them. -/
def GetAllAuthors (ordPosts : RangeOrder BlogPost) (ordAuthors : RangeOrder Unit) (s : Store) :
    List String :=
  let authorMap := ((ordPosts.visit s.posts.entries).map Prod.snd).foldl
    (fun m post => m.set post.Author ()) GoMap.empty
  (ordAuthors.visit authorMap.entries).map Prod.fst

/-- `AddOrUpdatePage`: `s.pages[page.ID] = page`. -/
def AddOrUpdatePage (s : Store) (page : BlogPage) : Store :=
  { s with pages := s.pages.set page.ID page }

/-- `DeletePage`: `delete(s.pages, id)`. -/
def DeletePage (s : Store) (id : String) : Store :=
  { s with pages := s.pages.delete id }

/-- `GetPage`: the page and the `exists` flag of `s.pages[id]`. -/
def GetPage (s : Store) (id : String) : Option BlogPage := s.pages.get id

/-- `GetAllPages`: the values of the map in visiting order, then `SortByOrder`. -/
def GetAllPages (srt : SortImpl) (ord : RangeOrder BlogPage) (s : Store) : List BlogPage :=
  SortByOrder srt ((ord.visit s.pages.entries).map Prod.snd)

end Store

/-- The store states the program can be in: `NewStore()` followed by any calls of the four
mutating methods. -/
inductive Reachable : Store → Prop
  | init : Reachable NewStore
  | addPost {s : Store} (p : BlogPost) : Reachable s → Reachable (s.AddOrUpdatePost p)
  | deletePost {s : Store} (id : String) : Reachable s → Reachable (s.DeletePost id)
  | addPage {s : Store} (p : BlogPage) : Reachable s → Reachable (s.AddOrUpdatePage p)
  | deletePage {s : Store} (id : String) : Reachable s → Reachable (s.DeletePage id)

/-! ## The records delivered by the informer -/

/-- A value of an unstructured object: the dynamic types the Kubernetes JSON decoder produces
(and the only ones `runtime.DeepCopyJSON` accepts). -/
inductive Value where
  | null
  | bool (b : Bool)
  | int64 (n : Int)
  | float64 (bits : Nat)
  | str (s : String)
  | list (xs : List Value)
  | map (fields : List (String × Value))

/-- What a handler receives as `obj interface{}`: an `*unstructured.Unstructured` with its
`Object` map, or a value of another dynamic type (such as `cache.DeletedFinalStateUnknown`). -/
inductive Obj where
  | unstructured (object : List (String × Value))
  | other

/-- `m[key]` on a `map[string]interface{}`: the value under `key`, the nil interface when the
key is absent. -/
def index (m : List (String × Value)) (key : String) : Value :=
  match m.find? (fun e => e.1 == key) with
  | some e => e.2
  | none => Value.null

/-- The three outcomes of `unstructured.NestedMap(obj, field)`: `(m, true, nil)`,
`(nil, false, nil)` and `(nil, false, err)`. -/
inductive NestedMapResult where
  | found (m : List (String × Value))
  | notFound
  | failed

/-- `unstructured.NestedMap(obj, field)` for a single field name: the field is found when it is
present and holds a map, not found when the key is absent, and an error when it holds anything
else. -/
def NestedMap (object : List (String × Value)) (field : String) : NestedMapResult :=
  match object.find? (fun e => e.1 == field) with
  | none => NestedMapResult.notFound
  | some (_, Value.map m) => NestedMapResult.found m
  | some _ => NestedMapResult.failed

/-- `s, _ := v.(string)`: the string, or the empty string for any other dynamic type. -/
def asString : Value → String
  | Value.str s => s
  | _ => ""

/-- `n, _ := v.(int64)`: the integer, or zero for any other dynamic type. -/
def asInt64 : Value → Int
  | Value.int64 n => n
  | _ => 0

/-- `s, ok := v.(string)` with its flag: the string when the dynamic type is string. -/
def stringOf : Value → Option String
  | Value.str s => some s
  | _ => none

/-- The loop over `tagsInterface`: the string elements are appended in order, the others are
passed over. -/
def stringElements : List Value → List String
  | [] => []
  | Value.str s :: rest => s :: stringElements rest
  | _ :: rest => stringElements rest

/-- The `tags` of `convertToBlogPost`: a nil slice unless `spec["tags"]` is a `[]interface{}`. -/
def extractTags : Value → List String
  | Value.list xs => stringElements xs
  | _ => []

/-! ## `controller.go`: conversion -/

/-- The two errors of `parseDate`. -/
inductive DateError where
  | notAString
  | badLayout
  deriving DecidableEq, Repr

/-- The errors of `convertToBlogPost` and `convertToBlogPage`. -/
inductive ConvError where
  | notUnstructured
  | specNotFound
  | authoredDate (cause : DateError)
  deriving DecidableEq, Repr

/-- `parseDate`: a value that is not a string is an error; a string goes to
`time.Parse(time.RFC3339, ·)`, here `parse`, and to nothing else. -/
def parseDate (parse : String → Option Time) : Value → Except DateError Time
  | Value.str dateStr =>
    match parse dateStr with
    | some t => Except.ok t
    | none => Except.error DateError.badLayout
  | _ => Except.error DateError.notAString

/-- The `updatedDate` block of `convertToBlogPost`: set only for a non-empty string that
parses. -/
def extractUpdatedDate (parse : String → Option Time) : Value → Option Time
  | Value.str updatedDateStr =>
    if updatedDateStr != "" then
      match parseDate parse (Value.str updatedDateStr) with
      | Except.ok parsed => some parsed
      | Except.error _ => none
    else none
  | _ => none

/-- `convertToBlogPost`. -/
def convertToBlogPost (parse : String → Option Time) (obj : Obj) : Except ConvError BlogPost :=
  match obj with
  | Obj.other => Except.error ConvError.notUnstructured
  | Obj.unstructured object =>
    match NestedMap object "spec" with
    | NestedMapResult.found spec =>
      let id := asString (index spec "id")
      let title := asString (index spec "title")
      let body := asString (index spec "body")
      let author := asString (index spec "author")
      let metaDescription := asString (index spec "metaDescription")
      let tags := extractTags (index spec "tags")
      match parseDate parse (index spec "authoredDate") with
      | Except.error err => Except.error (ConvError.authoredDate err)
      | Except.ok authoredDate =>
        let updatedDate := extractUpdatedDate parse (index spec "updatedDate")
        Except.ok
          { ID := id, Title := title, Body := body, Author := author,
            MetaDescription := metaDescription, Tags := tags,
            AuthoredDate := authoredDate, UpdatedDate := updatedDate }
    | _ => Except.error ConvError.specNotFound

/-- `convertToBlogPage`; `int(order)` is the identity on the 64-bit platforms the program is
built for. -/
def convertToBlogPage (obj : Obj) : Except ConvError BlogPage :=
  match obj with
  | Obj.other => Except.error ConvError.notUnstructured
  | Obj.unstructured object =>
    match NestedMap object "spec" with
    | NestedMapResult.found spec =>
      let id := asString (index spec "id")
      let title := asString (index spec "title")
      let content := asString (index spec "content")
      let order := asInt64 (index spec "order")
      Except.ok { ID := id, Title := title, Content := content, Order := order }
    | _ => Except.error ConvError.specNotFound

/-! ## `controller.go`: handlers -/

/-- `handlePostAdd`. -/
def handlePostAdd (parse : String → Option Time) (obj : Obj) (s : Store) : Store :=
  match convertToBlogPost parse obj with
  | Except.error _ => s
  | Except.ok post => s.AddOrUpdatePost post

/-- `handlePostUpdate`: only `newObj` is read. -/
def handlePostUpdate (parse : String → Option Time) (_oldObj newObj : Obj) (s : Store) : Store :=
  match convertToBlogPost parse newObj with
  | Except.error _ => s
  | Except.ok post => s.AddOrUpdatePost post

/-- `handlePostDelete`. -/
def handlePostDelete (parse : String → Option Time) (obj : Obj) (s : Store) : Store :=
  match convertToBlogPost parse obj with
  | Except.error _ => s
  | Except.ok post => s.DeletePost post.ID

/-- `handlePageAdd`. -/
def handlePageAdd (obj : Obj) (s : Store) : Store :=
  match convertToBlogPage obj with
  | Except.error _ => s
  | Except.ok page => s.AddOrUpdatePage page

/-- `handlePageUpdate`: only `newObj` is read. -/
def handlePageUpdate (_oldObj newObj : Obj) (s : Store) : Store :=
  match convertToBlogPage newObj with
  | Except.error _ => s
  | Except.ok page => s.AddOrUpdatePage page

/-- `handlePageDelete`. -/
def handlePageDelete (obj : Obj) (s : Store) : Store :=
  match convertToBlogPage obj with
  | Except.error _ => s
  | Except.ok page => s.DeletePage page.ID

/-- One call of the informers into the controller: which of the six registered callbacks, and
its arguments. -/
inductive Notification where
  | postAdd (obj : Obj)
  | postUpdate (oldObj newObj : Obj)
  | postDelete (obj : Obj)
  | pageAdd (obj : Obj)
  | pageUpdate (oldObj newObj : Obj)
  | pageDelete (obj : Obj)

/-- The callback registered in `Start` for each kind of notification. -/
def Notification.handle (parse : String → Option Time) : Notification → Store → Store
  | Notification.postAdd obj => handlePostAdd parse obj
  | Notification.postUpdate oldObj newObj => handlePostUpdate parse oldObj newObj
  | Notification.postDelete obj => handlePostDelete parse obj
  | Notification.pageAdd obj => handlePageAdd obj
  | Notification.pageUpdate oldObj newObj => handlePageUpdate oldObj newObj
  | Notification.pageDelete obj => handlePageDelete obj

/-- The record a notification has converted, and whether that conversion fails. -/
def Notification.conversionFails (parse : String → Option Time) : Notification → Bool
  | Notification.postAdd obj => !(convertToBlogPost parse obj).toBool
  | Notification.postUpdate _ newObj => !(convertToBlogPost parse newObj).toBool
  | Notification.postDelete obj => !(convertToBlogPost parse obj).toBool
  | Notification.pageAdd obj => !(convertToBlogPage obj).toBool
  | Notification.pageUpdate _ newObj => !(convertToBlogPage newObj).toBool
  | Notification.pageDelete obj => !(convertToBlogPage obj).toBool

/-- The notifications of a run, handled one after the other. -/
def deliverAll (parse : String → Option Time) (ns : List Notification) (s : Store) : Store :=
  ns.foldl (fun st n => n.handle parse st) s

/-! ## A reference instance of the timestamp parser -/

/-- The value of a decimal digit. -/
def digitValue (c : Char) : Option Nat :=
  if c.isDigit then some (c.toNat - 48) else none

/-- The number written by a run of decimal digits. -/
def decimal : List Char → Option Nat
  | cs => cs.foldlM (fun acc c => (digitValue c).map (fun d => acc * 10 + d)) 0

/-- Whether a year of the proleptic Gregorian calendar is a leap year. -/
def isLeap (y : Nat) : Bool := (y % 4 == 0 && y % 100 != 0) || y % 400 == 0

/-- The number of days of a month. -/
def daysIn (y m : Nat) : Nat :=
  if m == 2 then (if isLeap y then 29 else 28)
  else if m == 4 || m == 6 || m == 9 || m == 11 then 30 else 31

/-- Days from 1970-01-01 to the given civil date. -/
def daysFromCivil (y m d : Nat) : Int :=
  let y' : Int := if m ≤ 2 then (y : Int) - 1 else y
  let era : Int := y' / 400
  let yoe : Int := y' - era * 400
  let mp : Int := (((m : Int) + 9) % 12)
  let doy : Int := (153 * mp + 2) / 5 + (d : Int) - 1
  let doe : Int := yoe * 365 + yoe / 4 - yoe / 100 + doy
  era * 146097 + doe - 719468

/-- A stand-in for `time.Parse(time.RFC3339, ·)` on concrete records: it accepts the timestamps
written `YYYY-MM-DDThh:mm:ssZ` with fields in range, which the library parses to the same
instant, and rejects every other string (the library also accepts fractional seconds and
numeric offsets). -/
def parseUtcSeconds (s : String) : Option Time :=
  match s.data with
  | [y1, y2, y3, y4, '-', m1, m2, '-', d1, d2, 'T', h1, h2, ':', n1, n2, ':', s1, s2, 'Z'] => do
    let year ← decimal [y1, y2, y3, y4]
    let month ← decimal [m1, m2]
    let day ← decimal [d1, d2]
    let hour ← decimal [h1, h2]
    let minute ← decimal [n1, n2]
    let second ← decimal [s1, s2]
    if 1 ≤ month ∧ month ≤ 12 ∧ 1 ≤ day ∧ day ≤ daysIn year month ∧
        hour < 24 ∧ minute < 60 ∧ second < 60 then
      some ⟨(((daysFromCivil year month day * 24 + hour) * 60 + minute) * 60 + second)
        * 1000000000⟩
    else none
  | _ => none

/-! ## Replaying operations on one id, and the records of the scenarios -/

/-- An upsert or a delete of the post collection. -/
inductive PostOp where
  | upsert (post : BlogPost)
  | delete (id : String)
  deriving DecidableEq, Repr

/-- The id an operation acts on. -/
def PostOp.target : PostOp → String
  | PostOp.upsert post => post.ID
  | PostOp.delete id => id

/-- The call an operation stands for. -/
def PostOp.apply : PostOp → Store → Store
  | PostOp.upsert post, s => s.AddOrUpdatePost post
  | PostOp.delete id, s => s.DeletePost id

/-- The operations applied first to last. -/
def replay (ops : List PostOp) (s : Store) : Store :=
  ops.foldl (fun st op => op.apply st) s

/-- The posts the store holds under the key `id`. -/
def Store.postsUnder (s : Store) (id : String) : List BlogPost :=
  (s.posts.entries.filter (fun e => e.1 == id)).map Prod.snd

/-- Every entry is stored under the `ID` of its record. -/
def Store.KeyedById (s : Store) : Prop :=
  (∀ e ∈ s.posts.entries, e.1 = e.2.ID) ∧ (∀ e ∈ s.pages.entries, e.1 = e.2.ID)

/-- A post with the given id, author, tags and authoring instant (in seconds). -/
def mkPost (id author : String) (tags : List String) (sec : Int) : BlogPost :=
  { ID := id, Title := "", MetaDescription := "", Body := "", Author := author, Tags := tags,
    AuthoredDate := ⟨sec * 1000000000⟩, UpdatedDate := none }

/-- A page with the given id and order. -/
def mkPage (id : String) (order : Int) : BlogPage :=
  { ID := id, Title := "", Content := "", Order := order }

/-- The scenario post `p1` as first added: tags `[go, k8s]`, author `alice`, authored
2024-01-01T00:00:00Z. -/
def p1Added : BlogPost := mkPost "p1" "alice" ["go", "k8s"] 1704067200

/-- The scenario post `p1` as updated: tags `[go]`, author `bob`. -/
def p1Updated : BlogPost := mkPost "p1" "bob" ["go"] 1704067200

/-- The store after `p1` is added and then updated. -/
def p1Store : Store := (NewStore.AddOrUpdatePost p1Added).AddOrUpdatePost p1Updated

/-- The store after `p1` is added and then `p2`, authored 2024-02-01T00:00:00Z, is added. -/
def p1p2Store : Store :=
  (NewStore.AddOrUpdatePost p1Added).AddOrUpdatePost (mkPost "p2" "bob" ["go"] 1706745600)

/-- The store after the pages `a` (order 2), `b` (order 1), `c` (order 0) are inserted in that
order. -/
def abcStore : Store :=
  ((NewStore.AddOrUpdatePage (mkPage "a" 2)).AddOrUpdatePage (mkPage "b" 1)).AddOrUpdatePage
    (mkPage "c" 0)

/-- A post record with a spec that has an `authoredDate` and no `id`. -/
def recNoId : Obj :=
  Obj.unstructured
    [("spec", Value.map [("title", Value.str "hello"),
      ("authoredDate", Value.str "2024-01-01T00:00:00Z")])]

/-- A post record with a spec whose `id` is a number. -/
def recNumericId : Obj :=
  Obj.unstructured
    [("spec", Value.map [("id", Value.int64 7),
      ("authoredDate", Value.str "2024-01-01T00:00:00Z")])]

/-- A post record with a spec that has an `id` and no `authoredDate`. -/
def recNoDate : Obj :=
  Obj.unstructured [("spec", Value.map [("id", Value.str "p1"), ("title", Value.str "hello")])]

/-- A post record whose `updatedDate` is a string outside the timestamp profile. -/
def recBadUpdated : Obj :=
  Obj.unstructured
    [("spec", Value.map [("id", Value.str "p1"),
      ("authoredDate", Value.str "2024-01-01T00:00:00Z"),
      ("updatedDate", Value.str "yesterday")])]

/-- A post record whose `tags` mix strings with a number and repeat a string. -/
def recMixedTags : Obj :=
  Obj.unstructured
    [("spec", Value.map [("id", Value.str "p1"),
      ("tags", Value.list [Value.str "go", Value.int64 3, Value.str "k8s", Value.str "go"]),
      ("authoredDate", Value.str "2024-01-01T00:00:00Z")])]

/-- The store holding the pages `a` and `b`, both of order 0, with `a` inserted first. -/
def tiedStoreAB : Store :=
  (NewStore.AddOrUpdatePage (mkPage "a" 0)).AddOrUpdatePage (mkPage "b" 0)

/-- The store holding the pages `a` and `b`, both of order 0, with `b` inserted first. -/
def tiedStoreBA : Store :=
  (NewStore.AddOrUpdatePage (mkPage "b" 0)).AddOrUpdatePage (mkPage "a" 0)

/-- The store holding the posts `x` and `y`, authored at the same instant, `x` inserted first. -/
def tiedPostsXY : Store :=
  (NewStore.AddOrUpdatePost (mkPost "x" "alice" [] 1704067200)).AddOrUpdatePost
    (mkPost "y" "bob" [] 1704067200)

/-- The store holding the posts `x` and `y`, authored at the same instant, `y` inserted first. -/
def tiedPostsYX : Store :=
  (NewStore.AddOrUpdatePost (mkPost "y" "bob" [] 1704067200)).AddOrUpdatePost
    (mkPost "x" "alice" [] 1704067200)

/-- A page record with id `a` and no `order`. -/
def recPageNoOrder : Obj :=
  Obj.unstructured [("spec", Value.map [("id", Value.str "a")])]

/-- A page record with id `b` and the explicit order `-1`. -/
def recPageMinusOne : Obj :=
  Obj.unstructured [("spec", Value.map [("id", Value.str "b"), ("order", Value.int64 (-1))])]

/-! ## The library's insertion sort meets the guarantee of `sort.Sort` -/

theorem slideLeft_perm {α : Type} (less : α → α → Bool) (x : α) (l : List α) :
    (slideLeft less x l).Perm (x :: l) := by
  induction l with
  | nil => exact List.Perm.refl _
  | cons e rest ih =>
    unfold slideLeft
    split
    · exact (List.Perm.cons e ih).trans (List.Perm.swap x e rest)
    · exact List.Perm.refl _

theorem foldl_slideLeft_perm {α : Type} (less : α → α → Bool) (l acc : List α) :
    (l.foldl (fun sortedRev x => slideLeft less x sortedRev) acc).Perm (l.reverse ++ acc) := by
  induction l generalizing acc with
  | nil => exact List.Perm.refl _
  | cons x rest ih =>
    simp only [List.foldl_cons, List.reverse_cons, List.append_assoc, List.singleton_append]
    exact (ih _).trans (List.Perm.append_left _ (slideLeft_perm less x acc))

theorem insertionSortGo_perm {α : Type} (less : α → α → Bool) (l : List α) :
    (insertionSortGo less l).Perm l := by
  unfold insertionSortGo
  refine (List.reverse_perm _).trans ((foldl_slideLeft_perm less l []).trans ?_)
  simp only [List.append_nil]
  exact List.reverse_perm l

theorem LessContract.asymm {α : Type} {less : α → α → Bool} (h : LessContract less) (a b : α)
    (hab : less a b = true) : less b a = false := by
  cases hba : less b a with
  | false => rfl
  | true =>
    have := h.trans a b a hab hba
    rw [h.irrefl a] at this
    exact absurd this (by decide)

theorem slideLeft_pairwise {α : Type} {less : α → α → Bool} (h : LessContract less) (x : α)
    (l : List α) (hl : l.Pairwise (fun a b => less a b = false)) :
    (slideLeft less x l).Pairwise (fun a b => less a b = false) := by
  induction l with
  | nil => exact List.pairwise_singleton _ _
  | cons e rest ih =>
    have hrest := (List.pairwise_cons.1 hl).2
    have he := (List.pairwise_cons.1 hl).1
    unfold slideLeft
    split
    · rename_i hlt
      refine List.pairwise_cons.2 ⟨?_, ih hrest⟩
      intro y hy
      rcases (List.mem_cons.1 ((slideLeft_perm less x rest).subset hy)) with rfl | hy
      · exact h.asymm _ _ hlt
      · exact he y hy
    · rename_i hnlt
      have hxe : less x e = false := by simpa using hnlt
      refine List.pairwise_cons.2 ⟨?_, hl⟩
      intro y hy
      rcases List.mem_cons.1 hy with rfl | hy
      · exact hxe
      · exact h.negTrans x e y hxe (he y hy)

theorem foldl_slideLeft_pairwise {α : Type} {less : α → α → Bool} (h : LessContract less)
    (l acc : List α) (hacc : acc.Pairwise (fun a b => less a b = false)) :
    (l.foldl (fun sortedRev x => slideLeft less x sortedRev) acc).Pairwise
      (fun a b => less a b = false) := by
  induction l generalizing acc with
  | nil => exact hacc
  | cons x rest ih => exact ih _ (slideLeft_pairwise h x acc hacc)

theorem insertionSortGo_sorted {α : Type} (less : α → α → Bool) (l : List α)
    (h : LessContract less) :
    (insertionSortGo less l).Pairwise (fun a b => less b a = false) := by
  unfold insertionSortGo
  rw [List.pairwise_reverse]
  exact foldl_slideLeft_pairwise h l [] List.Pairwise.nil

/-- The insertion sort of the library as an implementation of `sort.Sort`. -/
def goInsertionSort : SortImpl where
  run := fun less l => insertionSortGo less l
  perm := fun less l => insertionSortGo_perm less l
  sorted := fun less l h => insertionSortGo_sorted less l h

/-! ## The two comparators are transitive orderings -/

theorem blogPosts_less_contract : LessContract BlogPosts.Less where
  irrefl := fun a => by simp [BlogPosts.Less, Time.After]
  trans := fun a b c hab hbc => by
    simp only [BlogPosts.Less, Time.After, decide_eq_true_eq] at *
    omega
  negTrans := fun a b c hab hbc => by
    simp only [BlogPosts.Less, Time.After, decide_eq_false_iff_not] at *
    omega

theorem blogPages_less_contract : LessContract BlogPages.Less where
  irrefl := fun a => by simp [BlogPages.Less]
  trans := fun a b c hab hbc => by
    simp only [BlogPages.Less, decide_eq_true_eq] at *
    omega
  negTrans := fun a b c hab hbc => by
    simp only [BlogPages.Less, decide_eq_false_iff_not] at *
    omega

/-! ## Go maps: lookup after update -/

namespace GoMap

variable {V : Type}

theorem find_key_iff (l : List (String × V)) (hl : (l.map Prod.fst).Nodup) (k : String) (v : V) :
    (l.find? (fun e => e.1 == k)).map Prod.snd = some v ↔ (k, v) ∈ l := by
  induction l with
  | nil => simp
  | cons e rest ih =>
    obtain ⟨ek, ev⟩ := e
    simp only [List.map_cons, List.nodup_cons, List.mem_map, not_exists, not_and] at hl
    by_cases hk : ek = k
    · subst hk
      simp only [List.find?_cons, beq_self_eq_true, Option.map_some', Option.some.injEq,
        List.mem_cons, Prod.mk.injEq, true_and]
      constructor
      · intro h; exact Or.inl h.symm
      · rintro (h | h)
        · exact h.symm
        · exact absurd rfl (hl.1 (ek, v) h)
    · have hne : (ek == k) = false := by simpa using hk
      simp only [List.find?_cons, hne, List.mem_cons, Prod.mk.injEq]
      rw [ih hl.2]
      constructor
      · intro h; exact Or.inr h
      · rintro (h | h)
        · exact absurd h.1.symm hk
        · exact h

theorem get_eq_some_iff (m : GoMap V) (k : String) (v : V) :
    m.get k = some v ↔ (k, v) ∈ m.entries :=
  find_key_iff m.entries m.nodupKeys k v

theorem filter_key_others (m : GoMap V) (k : String) :
    (m.others k).filter (fun e => e.1 == k) = [] := by
  simp [others, List.filter_filter, List.filter_eq_nil_iff]

theorem get_set_self (m : GoMap V) (k : String) (v : V) : (m.set k v).get k = some v := by
  simp [get, set]

theorem get_delete_self (m : GoMap V) (k : String) : (m.delete k).get k = none := by
  simp [get, delete, others, List.find?_eq_none]

theorem filter_key_length_le_one (m : GoMap V) (k : String) :
    (m.entries.filter (fun e => e.1 == k)).length ≤ 1 := by
  have h := List.nodup_iff_count_le_one.1 m.nodupKeys k
  rw [List.count, List.countP_map, List.countP_eq_length_filter] at h
  have he : (fun e : String × V => e.1 == k) = ((fun x => x == k) ∘ Prod.fst) := rfl
  rw [he]
  exact h

end GoMap

/-! ## Store invariants -/

theorem Store.postsUnder_addOrUpdate (s : Store) (post : BlogPost) :
    (s.AddOrUpdatePost post).postsUnder post.ID = [post] := by
  simp [Store.postsUnder, Store.AddOrUpdatePost, GoMap.set, List.filter_cons,
    GoMap.filter_key_others]

theorem Store.postsUnder_delete (s : Store) (id : String) :
    (s.DeletePost id).postsUnder id = [] := by
  simp [Store.postsUnder, Store.DeletePost, GoMap.delete, GoMap.filter_key_others]

theorem Store.postsUnder_length_le_one (s : Store) (id : String) :
    (s.postsUnder id).length ≤ 1 := by
  simpa [Store.postsUnder] using s.posts.filter_key_length_le_one id

theorem replay_append_singleton (ops : List PostOp) (last : PostOp) (s : Store) :
    replay (ops ++ [last]) s = last.apply (replay ops s) := by
  simp [replay, List.foldl_append]

theorem GoMap.mem_others {V : Type} (m : GoMap V) (k : String) (e : String × V)
    (he : e ∈ m.others k) : e ∈ m.entries :=
  (List.mem_filter.1 he).1

theorem keyedById_newStore : NewStore.KeyedById := by
  constructor <;> intro e he <;> simp [NewStore, GoMap.empty] at he

theorem Reachable.keyedById {s : Store} (hs : Reachable s) : s.KeyedById := by
  induction hs with
  | init => exact keyedById_newStore
  | addPost p _ ih =>
    refine ⟨?_, ih.2⟩
    intro e he
    rcases List.mem_cons.1 he with rfl | he
    · rfl
    · exact ih.1 e (GoMap.mem_others _ _ e he)
  | deletePost id _ ih =>
    exact ⟨fun e he => ih.1 e (GoMap.mem_others _ _ e he), ih.2⟩
  | addPage p _ ih =>
    refine ⟨ih.1, ?_⟩
    intro e he
    rcases List.mem_cons.1 he with rfl | he
    · rfl
    · exact ih.2 e (GoMap.mem_others _ _ e he)
  | deletePage id _ ih =>
    exact ⟨ih.1, fun e he => ih.2 e (GoMap.mem_others _ _ e he)⟩

/-! ## C1 -/

/-- C1: after any sequence of upserts and deletes that all act on `id`, applied to any store,
`GetPost(id)` returns the record of the last operation when it is an upsert and not-found when
it is a delete, the store holds under `id` exactly that record or nothing, and after every
initial part of the sequence the store holds at most one post under `id`. -/
theorem c1_last_operation_on_id_wins (s : Store) (id : String) (ops : List PostOp)
    (last : PostOp) (hops : ∀ op ∈ ops ++ [last], op.target = id) :
    ((replay (ops ++ [last]) s).GetPost id =
        match last with
        | PostOp.upsert post => some post
        | PostOp.delete _ => none) ∧
      ((replay (ops ++ [last]) s).postsUnder id =
        match last with
        | PostOp.upsert post => [post]
        | PostOp.delete _ => []) ∧
      ∀ done : List PostOp, done <+: ops ++ [last] →
        ((replay done s).postsUnder id).length ≤ 1 := by
  have hlast : last.target = id := hops last (by simp)
  refine ⟨?_, ?_, fun done _ => Store.postsUnder_length_le_one _ _⟩
  · rw [replay_append_singleton]
    cases last with
    | upsert post =>
      have hid : post.ID = id := hlast
      subst hid
      exact GoMap.get_set_self _ _ _
    | delete k =>
      have hid : k = id := hlast
      subst hid
      exact GoMap.get_delete_self _ _
  · rw [replay_append_singleton]
    cases last with
    | upsert post =>
      have hid : post.ID = id := hlast
      subst hid
      exact Store.postsUnder_addOrUpdate _ _
    | delete k =>
      have hid : k = id := hlast
      subst hid
      exact Store.postsUnder_delete _ _

/-- C1 at a concrete input: `p1` is added, deleted and added again as updated. -/
theorem c1_last_operation_on_id_wins_witness :
    (∀ op ∈ [PostOp.upsert p1Added, PostOp.delete "p1"] ++ [PostOp.upsert p1Updated],
        op.target = "p1") ∧
      (replay ([PostOp.upsert p1Added, PostOp.delete "p1"] ++ [PostOp.upsert p1Updated])
        NewStore).GetPost "p1" = some p1Updated :=
  ⟨by decide,
    (c1_last_operation_on_id_wins NewStore "p1" [PostOp.upsert p1Added, PostOp.delete "p1"]
      (PostOp.upsert p1Updated) (by decide)).1⟩

/-! ## Queries -/

theorem Store.hasTag_iff (tag : String) (tags : List String) :
    Store.hasTag tag tags = true ↔ tag ∈ tags := by
  induction tags with
  | nil => simp [Store.hasTag]
  | cons t ts ih =>
    unfold Store.hasTag
    by_cases h : t = tag
    · simp [h]
    · have hne : (t == tag) = false := by simpa using h
      have hne2 : ¬ tag = t := fun e => h e.symm
      simp [hne, ih, hne2]

theorem Store.getAllPosts_perm (srt : SortImpl) (ord : RangeOrder BlogPost) (s : Store) :
    (s.GetAllPosts srt ord).Perm s.posts.values :=
  (srt.perm _ _).trans ((ord.perm _).map _)

theorem Store.getAllPages_perm (srt : SortImpl) (ord : RangeOrder BlogPage) (s : Store) :
    (s.GetAllPages srt ord).Perm s.pages.values :=
  (srt.perm _ _).trans ((ord.perm _).map _)

theorem Store.getPostsByTag_perm (srt : SortImpl) (ord : RangeOrder BlogPost) (s : Store)
    (tag : String) :
    (s.GetPostsByTag srt ord tag).Perm
      (s.posts.values.filter (fun post => Store.hasTag tag post.Tags)) :=
  (srt.perm _ _).trans (((ord.perm _).map _).filter _)

theorem Store.getPostsByAuthor_perm (srt : SortImpl) (ord : RangeOrder BlogPost) (s : Store)
    (author : String) :
    (s.GetPostsByAuthor srt ord author).Perm
      (s.posts.values.filter (fun post => post.Author == author)) :=
  (srt.perm _ _).trans (((ord.perm _).map _).filter _)

theorem Reachable.posts_values_nodup {s : Store} (hs : Reachable s) : s.posts.values.Nodup := by
  have hk := hs.keyedById.1
  have hmap : s.posts.values.map BlogPost.ID = s.posts.entries.map Prod.fst := by
    simp only [GoMap.values, List.map_map]
    exact List.map_congr_left (fun e he => (hk e he).symm)
  exact List.Nodup.of_map BlogPost.ID (hmap ▸ s.posts.nodupKeys)

theorem Reachable.pages_values_nodup {s : Store} (hs : Reachable s) : s.pages.values.Nodup := by
  have hk := hs.keyedById.2
  have hmap : s.pages.values.map BlogPage.ID = s.pages.entries.map Prod.fst := by
    simp only [GoMap.values, List.map_map]
    exact List.map_congr_left (fun e he => (hk e he).symm)
  exact List.Nodup.of_map BlogPage.ID (hmap ▸ s.pages.nodupKeys)

theorem Reachable.mem_posts_values {s : Store} (hs : Reachable s) (post : BlogPost) :
    post ∈ s.posts.values ↔ s.GetPost post.ID = some post := by
  rw [Store.GetPost, GoMap.get_eq_some_iff]
  constructor
  · intro h
    obtain ⟨e, he, rfl⟩ := List.mem_map.1 h
    have := hs.keyedById.1 e he
    rw [← this]
    exact he
  · intro h
    exact List.mem_map.2 ⟨_, h, rfl⟩

theorem Reachable.mem_pages_values {s : Store} (hs : Reachable s) (page : BlogPage) :
    page ∈ s.pages.values ↔ s.GetPage page.ID = some page := by
  rw [Store.GetPage, GoMap.get_eq_some_iff]
  constructor
  · intro h
    obtain ⟨e, he, rfl⟩ := List.mem_map.1 h
    have := hs.keyedById.2 e he
    rw [← this]
    exact he
  · intro h
    exact List.mem_map.2 ⟨_, h, rfl⟩

theorem p1Store_values : p1Store.posts.values = [p1Updated] := by decide

theorem abcStore_values :
    abcStore.pages.values = [mkPage "c" 0, mkPage "b" 1, mkPage "a" 2] := by decide

theorem reachable_p1Store : Reachable p1Store :=
  Reachable.addPost _ (Reachable.addPost _ Reachable.init)

theorem reachable_abcStore : Reachable abcStore :=
  Reachable.addPage _ (Reachable.addPage _ (Reachable.addPage _ Reachable.init))

/-! ## C2, C3 -/

/-- C2: in a reachable store, whatever the traversal orders of the two calls,
`GetPostsByTag(t)` is a rearrangement of the posts of `GetAllPosts()` whose `Tags` contain `t`,
it holds no post twice, and a post is in it exactly when it is in `GetAllPosts()` with `t` among
its tags; and once `p1` is added with tags `[go, k8s]` and updated to `[go]`,
`GetPostsByTag("k8s")` is empty. -/
theorem c2_posts_by_tag_is_the_tagged_part (srt : SortImpl) (ordTag ordAll : RangeOrder BlogPost)
    (s : Store) (hs : Reachable s) (t : String) :
    (s.GetPostsByTag srt ordTag t).Perm
        ((s.GetAllPosts srt ordAll).filter (fun post => decide (t ∈ post.Tags))) ∧
      (s.GetPostsByTag srt ordTag t).Nodup ∧
      (∀ post, post ∈ s.GetPostsByTag srt ordTag t ↔
        post ∈ s.GetAllPosts srt ordAll ∧ t ∈ post.Tags) ∧
      p1Store.GetPostsByTag srt ordTag "k8s" = [] := by
  have hfun : (fun post : BlogPost => Store.hasTag t post.Tags) =
      (fun post => decide (t ∈ post.Tags)) := by
    funext post
    rw [Bool.eq_iff_iff, Store.hasTag_iff]
    simp
  have hperm : (s.GetPostsByTag srt ordTag t).Perm
      ((s.GetAllPosts srt ordAll).filter (fun post => decide (t ∈ post.Tags))) := by
    refine (Store.getPostsByTag_perm srt ordTag s t).trans ?_
    rw [hfun]
    exact ((Store.getAllPosts_perm srt ordAll s).filter _).symm
  refine ⟨hperm, ?_, ?_, ?_⟩
  · exact (Store.getPostsByTag_perm srt ordTag s t).nodup_iff.2 (hs.posts_values_nodup.filter _)
  · intro post
    rw [hperm.mem_iff, List.mem_filter]
    simp
  · have h := Store.getPostsByTag_perm srt ordTag p1Store "k8s"
    rw [p1Store_values] at h
    exact List.perm_nil.1 h

/-- C2 at a concrete input: the store holding `p1` as updated, and the tag `go`. -/
theorem c2_posts_by_tag_is_the_tagged_part_witness :
    Reachable p1Store ∧
      (p1Store.GetPostsByTag goInsertionSort (RangeOrder.asListed BlogPost) "go").Perm
        ((p1Store.GetAllPosts goInsertionSort (RangeOrder.backwards BlogPost)).filter
          (fun post => decide ("go" ∈ post.Tags))) :=
  ⟨reachable_p1Store,
    (c2_posts_by_tag_is_the_tagged_part goInsertionSort (RangeOrder.asListed BlogPost)
      (RangeOrder.backwards BlogPost) p1Store reachable_p1Store "go").1⟩

/-- C3: in a reachable store, whatever the traversal orders of the two calls,
`GetPostsByAuthor(a)` is a rearrangement of the posts of `GetAllPosts()` whose `Author` is `a`,
it holds no post twice, and a post is in it exactly when it is in `GetAllPosts()` with author
`a`; and once `p1` is added with author `alice` and updated to author `bob`,
`GetPostsByAuthor("alice")` is empty and `GetPostsByAuthor("bob")` is `[p1]`. -/
theorem c3_posts_by_author_is_the_authored_part (srt : SortImpl)
    (ordAuthor ordAll : RangeOrder BlogPost) (s : Store) (hs : Reachable s) (a : String) :
    (s.GetPostsByAuthor srt ordAuthor a).Perm
        ((s.GetAllPosts srt ordAll).filter (fun post => decide (post.Author = a))) ∧
      (s.GetPostsByAuthor srt ordAuthor a).Nodup ∧
      (∀ post, post ∈ s.GetPostsByAuthor srt ordAuthor a ↔
        post ∈ s.GetAllPosts srt ordAll ∧ post.Author = a) ∧
      p1Store.GetPostsByAuthor srt ordAuthor "alice" = [] ∧
      p1Store.GetPostsByAuthor srt ordAuthor "bob" = [p1Updated] := by
  have hfun : (fun post : BlogPost => post.Author == a) =
      (fun post => decide (post.Author = a)) := by
    funext post
    rw [Bool.eq_iff_iff]
    simp
  have hperm : (s.GetPostsByAuthor srt ordAuthor a).Perm
      ((s.GetAllPosts srt ordAll).filter (fun post => decide (post.Author = a))) := by
    refine (Store.getPostsByAuthor_perm srt ordAuthor s a).trans ?_
    rw [hfun]
    exact ((Store.getAllPosts_perm srt ordAll s).filter _).symm
  refine ⟨hperm, ?_, ?_, ?_, ?_⟩
  · exact (Store.getPostsByAuthor_perm srt ordAuthor s a).nodup_iff.2
      (hs.posts_values_nodup.filter _)
  · intro post
    rw [hperm.mem_iff, List.mem_filter]
    simp
  · have h := Store.getPostsByAuthor_perm srt ordAuthor p1Store "alice"
    rw [p1Store_values] at h
    exact List.perm_nil.1 h
  · have h := Store.getPostsByAuthor_perm srt ordAuthor p1Store "bob"
    rw [p1Store_values] at h
    exact List.perm_singleton.1 h

/-- C3 at a concrete input: the store holding `p1` as updated, and the author `bob`. -/
theorem c3_posts_by_author_is_the_authored_part_witness :
    Reachable p1Store ∧
      p1Store.GetPostsByAuthor goInsertionSort (RangeOrder.backwards BlogPost) "bob" =
        [p1Updated] :=
  ⟨reachable_p1Store,
    (c3_posts_by_author_is_the_authored_part goInsertionSort (RangeOrder.backwards BlogPost)
      (RangeOrder.asListed BlogPost) p1Store reachable_p1Store "bob").2.2.2.2⟩

/-! ## C4, C5 -/

theorem Store.getAllPosts_sorted (srt : SortImpl) (ord : RangeOrder BlogPost) (s : Store) :
    (s.GetAllPosts srt ord).Pairwise
      (fun a b => b.AuthoredDate.After a.AuthoredDate = false) :=
  srt.sorted BlogPosts.Less _ blogPosts_less_contract

theorem Store.getAllPages_sorted (srt : SortImpl) (ord : RangeOrder BlogPage) (s : Store) :
    (s.GetAllPages srt ord).Pairwise (fun a b => a.Order ≤ b.Order) := by
  have h := srt.sorted BlogPages.Less ((ord.visit s.pages.entries).map Prod.snd)
    blogPages_less_contract
  refine List.Pairwise.imp ?_ h
  intro a b hab
  simpa [BlogPages.Less] using hab

/-- C4: in a reachable store, whatever the traversal order, `GetAllPosts()` is a rearrangement
of the stored posts, holds no post twice, holds a post exactly when `GetPost` finds it under its
id, and is sorted newest first: for positions `i < j` the post at `j` is not authored after the
post at `i`. -/
theorem c4_all_posts_each_once_newest_first (srt : SortImpl) (ord : RangeOrder BlogPost)
    (s : Store) (hs : Reachable s) :
    (s.GetAllPosts srt ord).Perm s.posts.values ∧
      (s.GetAllPosts srt ord).Nodup ∧
      (∀ post, post ∈ s.GetAllPosts srt ord ↔ s.GetPost post.ID = some post) ∧
      ∀ i j : Fin (s.GetAllPosts srt ord).length, i < j →
        ((s.GetAllPosts srt ord).get j).AuthoredDate.After
          ((s.GetAllPosts srt ord).get i).AuthoredDate = false := by
  have hperm := Store.getAllPosts_perm srt ord s
  refine ⟨hperm, hperm.nodup_iff.2 hs.posts_values_nodup, ?_, ?_⟩
  · intro post
    rw [hperm.mem_iff]
    exact hs.mem_posts_values post
  · exact List.pairwise_iff_get.1 (Store.getAllPosts_sorted srt ord s)

/-- C4 at a concrete input: with `p1` of January and `p2` of February stored, the insertion sort
and the traversal last to first, `GetAllPosts()` is `[p2, p1]`. -/
theorem c4_all_posts_each_once_newest_first_witness :
    Reachable p1p2Store ∧
      p1p2Store.GetAllPosts goInsertionSort (RangeOrder.backwards BlogPost) =
        [mkPost "p2" "bob" ["go"] 1706745600, p1Added] ∧
      (p1p2Store.GetAllPosts goInsertionSort (RangeOrder.backwards BlogPost)).Nodup :=
  ⟨Reachable.addPost _ (Reachable.addPost _ Reachable.init), by decide,
    (c4_all_posts_each_once_newest_first goInsertionSort (RangeOrder.backwards BlogPost)
      p1p2Store (Reachable.addPost _ (Reachable.addPost _ Reachable.init))).2.1⟩

/-- C5: in a reachable store, whatever the traversal order, `GetAllPages()` is a rearrangement
of the stored pages, holds no page twice, holds a page exactly when `GetPage` finds it under its
id, and is sorted by `Order` ascending; and after the pages `a` (order 2), `b` (order 1),
`c` (order 0) are inserted in that order, `GetAllPages()` is `[c, b, a]`. -/
theorem c5_all_pages_each_once_by_order (srt : SortImpl) (ord : RangeOrder BlogPage)
    (s : Store) (hs : Reachable s) :
    (s.GetAllPages srt ord).Perm s.pages.values ∧
      (s.GetAllPages srt ord).Nodup ∧
      (∀ page, page ∈ s.GetAllPages srt ord ↔ s.GetPage page.ID = some page) ∧
      (∀ i j : Fin (s.GetAllPages srt ord).length, i < j →
        ((s.GetAllPages srt ord).get i).Order ≤ ((s.GetAllPages srt ord).get j).Order) ∧
      abcStore.GetAllPages srt ord = [mkPage "c" 0, mkPage "b" 1, mkPage "a" 2] := by
  have hperm := Store.getAllPages_perm srt ord s
  refine ⟨hperm, hperm.nodup_iff.2 hs.pages_values_nodup, ?_, ?_, ?_⟩
  · intro page
    rw [hperm.mem_iff]
    exact hs.mem_pages_values page
  · exact List.pairwise_iff_get.1 (Store.getAllPages_sorted srt ord s)
  · have hp := Store.getAllPages_perm srt ord abcStore
    rw [abcStore_values] at hp
    have hsorted := Store.getAllPages_sorted srt ord abcStore
    have hkeys : (abcStore.GetAllPages srt ord).map BlogPage.Order = [0, 1, 2] :=
      List.eq_of_perm_of_sorted (hp.map BlogPage.Order) (List.pairwise_map.2 hsorted)
        (by decide)
    generalize abcStore.GetAllPages srt ord = out at hp hkeys
    have hsub := hp.subset
    rcases out with _ | ⟨x, _ | ⟨y, _ | ⟨z, _ | ⟨w, rest⟩⟩⟩⟩
    · simp at hkeys
    · simp at hkeys
    · simp at hkeys
    · simp only [List.map_cons, List.map_nil, List.cons.injEq, and_true] at hkeys
      obtain ⟨hx, hy, hz⟩ := hkeys
      have mx := hsub (List.mem_cons_self x _)
      have my := hsub (List.mem_cons_of_mem x (List.mem_cons_self y _))
      have mz := hsub (List.mem_cons_of_mem x (List.mem_cons_of_mem y (List.mem_cons_self z _)))
      simp only [List.mem_cons, List.mem_singleton, List.not_mem_nil, or_false] at mx my mz
      rcases mx with rfl | rfl | rfl <;> simp [mkPage] at hx
      rcases my with rfl | rfl | rfl <;> simp [mkPage] at hy
      rcases mz with rfl | rfl | rfl <;> simp [mkPage] at hz
      rfl
    · simp at hkeys

/-- C5 at a concrete input: the three pages of the scenario, the insertion sort and the
traversal in listed order. -/
theorem c5_all_pages_each_once_by_order_witness :
    Reachable abcStore ∧
      goInsertionSort.run BlogPages.Less [mkPage "a" 2, mkPage "b" 1, mkPage "c" 0] =
        [mkPage "c" 0, mkPage "b" 1, mkPage "a" 2] ∧
      abcStore.GetAllPages goInsertionSort (RangeOrder.asListed BlogPage) =
        [mkPage "c" 0, mkPage "b" 1, mkPage "a" 2] :=
  ⟨reachable_abcStore, by decide,
    (c5_all_pages_each_once_by_order goInsertionSort (RangeOrder.asListed BlogPage) abcStore
      reachable_abcStore).2.2.2.2⟩

/-! ## C6 -/

/-- C6: for a record with a spec, `convertToBlogPost` fails with the `authoredDate` error when
the spec has no `authoredDate`, when its `authoredDate` is not a string, and when it is a string
that the one parser rejects; the result is that of the single call of the parser, so no other
format is tried, and it is a function of the record. -/
theorem c6_authored_date_is_required (parse : String → Option Time)
    (object spec : List (String × Value))
    (hspec : NestedMap object "spec" = NestedMapResult.found spec) :
    (spec.find? (fun e => e.1 == "authoredDate") = none →
        convertToBlogPost parse (Obj.unstructured object) =
          Except.error (ConvError.authoredDate DateError.notAString)) ∧
      ((∀ str, index spec "authoredDate" ≠ Value.str str) →
        convertToBlogPost parse (Obj.unstructured object) =
          Except.error (ConvError.authoredDate DateError.notAString)) ∧
      (∀ str, index spec "authoredDate" = Value.str str → parse str = none →
        convertToBlogPost parse (Obj.unstructured object) =
          Except.error (ConvError.authoredDate DateError.badLayout)) := by
  have hnot : (∀ str, index spec "authoredDate" ≠ Value.str str) →
      convertToBlogPost parse (Obj.unstructured object) =
        Except.error (ConvError.authoredDate DateError.notAString) := by
    intro h
    simp only [convertToBlogPost, hspec]
    cases hv : index spec "authoredDate" with
    | str str => exact absurd hv (h str)
    | null => rfl
    | bool b => rfl
    | int64 n => rfl
    | float64 bits => rfl
    | list xs => rfl
    | map fields => rfl
  refine ⟨?_, hnot, ?_⟩
  · intro habsent
    apply hnot
    intro str hstr
    simp [index, habsent] at hstr
  · intro str hstr hparse
    simp only [convertToBlogPost, hspec, hstr, parseDate, hparse]

/-- C6 at a concrete input: a record with no `authoredDate`. -/
theorem c6_authored_date_is_required_witness :
    convertToBlogPost parseUtcSeconds recNoDate =
      Except.error (ConvError.authoredDate DateError.notAString) :=
  (c6_authored_date_is_required parseUtcSeconds
    [("spec", Value.map [("id", Value.str "p1"), ("title", Value.str "hello")])]
    [("id", Value.str "p1"), ("title", Value.str "hello")] rfl).1 rfl

/-! ## C7 -/

theorem handle_of_conversionFails (parse : String → Option Time) (n : Notification)
    (hfail : n.conversionFails parse = true) (s : Store) : n.handle parse s = s := by
  cases n with
  | postAdd obj =>
    simp only [Notification.conversionFails] at hfail
    simp only [Notification.handle, handlePostAdd]
    cases h : convertToBlogPost parse obj with
    | error e => rfl
    | ok post => simp [h, Except.toBool] at hfail
  | postUpdate oldObj newObj =>
    simp only [Notification.conversionFails] at hfail
    simp only [Notification.handle, handlePostUpdate]
    cases h : convertToBlogPost parse newObj with
    | error e => rfl
    | ok post => simp [h, Except.toBool] at hfail
  | postDelete obj =>
    simp only [Notification.conversionFails] at hfail
    simp only [Notification.handle, handlePostDelete]
    cases h : convertToBlogPost parse obj with
    | error e => rfl
    | ok post => simp [h, Except.toBool] at hfail
  | pageAdd obj =>
    simp only [Notification.conversionFails] at hfail
    simp only [Notification.handle, handlePageAdd]
    cases h : convertToBlogPage obj with
    | error e => rfl
    | ok page => simp [h, Except.toBool] at hfail
  | pageUpdate oldObj newObj =>
    simp only [Notification.conversionFails] at hfail
    simp only [Notification.handle, handlePageUpdate]
    cases h : convertToBlogPage newObj with
    | error e => rfl
    | ok page => simp [h, Except.toBool] at hfail
  | pageDelete obj =>
    simp only [Notification.conversionFails] at hfail
    simp only [Notification.handle, handlePageDelete]
    cases h : convertToBlogPage obj with
    | error e => rfl
    | ok page => simp [h, Except.toBool] at hfail

/-- C7: a notification of any of the six kinds whose record fails conversion leaves the store
as it was, so both collections and the post count are unchanged, and a run of notifications
that contains it ends in the same store as the run without it. -/
theorem c7_failed_conversion_is_contained (parse : String → Option Time) (n : Notification)
    (hfail : n.conversionFails parse = true) (s : Store) :
    n.handle parse s = s ∧
      (n.handle parse s).posts.entries.length = s.posts.entries.length ∧
      (∀ next : Notification, next.handle parse (n.handle parse s) = next.handle parse s) ∧
      ∀ before after : List Notification,
        deliverAll parse (before ++ n :: after) s = deliverAll parse (before ++ after) s := by
  have h := handle_of_conversionFails parse n hfail
  refine ⟨h s, by rw [h s], fun next => by rw [h s], ?_⟩
  intro before after
  simp only [deliverAll, List.foldl_append, List.foldl_cons]
  rw [h]

/-- C7 at a concrete input: a post record with no `authoredDate` arrives as an add while `p1` is
stored. -/
theorem c7_failed_conversion_is_contained_witness :
    (Notification.postAdd recNoDate).conversionFails parseUtcSeconds = true ∧
      ((Notification.postAdd recNoDate).handle parseUtcSeconds p1Store).posts.entries.length =
        p1Store.posts.entries.length :=
  ⟨rfl, (c7_failed_conversion_is_contained parseUtcSeconds (Notification.postAdd recNoDate) rfl
    p1Store).2.1⟩

/-! ## C8 -/

theorem convertToBlogPost_of_date (parse : String → Option Time)
    (object spec : List (String × Value)) (str : String) (t : Time)
    (hspec : NestedMap object "spec" = NestedMapResult.found spec)
    (hdate : index spec "authoredDate" = Value.str str) (hparse : parse str = some t) :
    convertToBlogPost parse (Obj.unstructured object) =
      Except.ok
        { ID := asString (index spec "id"), Title := asString (index spec "title"),
          Body := asString (index spec "body"), Author := asString (index spec "author"),
          MetaDescription := asString (index spec "metaDescription"),
          Tags := extractTags (index spec "tags"), AuthoredDate := t,
          UpdatedDate := extractUpdatedDate parse (index spec "updatedDate") } := by
  simp only [convertToBlogPost, hspec, hdate, parseDate, hparse]

/-- C8, the claim fails: a record with no `id`, and a record whose `id` is a number, both with
a parsable `authoredDate`, convert successfully to a post whose `ID` is empty. -/
theorem c8_missing_id_converts_counterexample :
    (∃ post, convertToBlogPost parseUtcSeconds recNoId = Except.ok post ∧ post.ID = "") ∧
      ∃ post, convertToBlogPost parseUtcSeconds recNumericId = Except.ok post ∧ post.ID = "" :=
  ⟨⟨_, rfl, rfl⟩, ⟨_, rfl, rfl⟩⟩

/-- C8 as amended: for a record with a spec and a parsable `authoredDate`, `convertToBlogPost`
succeeds whatever `id` is; the `ID` of the post is `spec.id` when that is a string and the empty
string when `spec.id` is absent or is not a string. -/
theorem c8_id_is_optional (parse : String → Option Time)
    (object spec : List (String × Value)) (str : String) (t : Time)
    (hspec : NestedMap object "spec" = NestedMapResult.found spec)
    (hdate : index spec "authoredDate" = Value.str str) (hparse : parse str = some t) :
    ∃ post, convertToBlogPost parse (Obj.unstructured object) = Except.ok post ∧
      (∀ x, index spec "id" = Value.str x → post.ID = x) ∧
      (spec.find? (fun e => e.1 == "id") = none → post.ID = "") ∧
      ((∀ x, index spec "id" ≠ Value.str x) → post.ID = "") := by
  refine ⟨_, convertToBlogPost_of_date parse object spec str t hspec hdate hparse, ?_, ?_, ?_⟩
  · intro x hx
    simp [hx, asString]
  · intro habsent
    simp [index, habsent, asString]
  · intro hx
    cases hv : index spec "id" with
    | str x => exact absurd hv (hx x)
    | null => rfl
    | bool b => rfl
    | int64 n => rfl
    | float64 bits => rfl
    | list xs => rfl
    | map fields => rfl

/-- C8 as amended at a concrete input: the record whose `id` is a number. -/
theorem c8_id_is_optional_witness :
    ∃ post, convertToBlogPost parseUtcSeconds recNumericId = Except.ok post ∧
      (∀ x, Value.int64 7 = Value.str x → post.ID = x) ∧
      (([("id", Value.int64 7), ("authoredDate", Value.str "2024-01-01T00:00:00Z")] :
          List (String × Value)).find? (fun e => e.1 == "id") = none → post.ID = "") ∧
      ((∀ x, Value.int64 7 ≠ Value.str x) → post.ID = "") :=
  c8_id_is_optional parseUtcSeconds
    [("spec", Value.map [("id", Value.int64 7),
      ("authoredDate", Value.str "2024-01-01T00:00:00Z")])]
    [("id", Value.int64 7), ("authoredDate", Value.str "2024-01-01T00:00:00Z")]
    "2024-01-01T00:00:00Z" ⟨1704067200000000000⟩ rfl rfl (by decide)

/-! ## C9 -/

theorem convertToBlogPage_of_spec (object spec : List (String × Value))
    (hspec : NestedMap object "spec" = NestedMapResult.found spec) :
    convertToBlogPage (Obj.unstructured object) =
      Except.ok
        { ID := asString (index spec "id"), Title := asString (index spec "title"),
          Content := asString (index spec "content"), Order := asInt64 (index spec "order") } := by
  simp only [convertToBlogPage, hspec]

/-- C9, the claim fails: the page `a` with no `order` converts to order 0, and after it and the
page `b` with the explicit order -1 are added, `GetAllPages()` lists `b` before `a`, whichever
way the map is traversed. -/
theorem c9_unordered_page_after_negative_order_counterexample :
    convertToBlogPage recPageNoOrder = Except.ok (mkPage "a" 0) ∧
      convertToBlogPage recPageMinusOne = Except.ok (mkPage "b" (-1)) ∧
      (handlePageAdd recPageMinusOne (handlePageAdd recPageNoOrder NewStore)).GetAllPages
          goInsertionSort (RangeOrder.asListed BlogPage) = [mkPage "b" (-1), mkPage "a" 0] ∧
      (handlePageAdd recPageMinusOne (handlePageAdd recPageNoOrder NewStore)).GetAllPages
          goInsertionSort (RangeOrder.backwards BlogPage) = [mkPage "b" (-1), mkPage "a" 0] :=
  ⟨rfl, rfl, by decide, by decide⟩

/-- C9 as amended: a page record with a spec whose `order` is absent or is not an int64 value
converts successfully with `Order = 0`, and in `GetAllPages()` of any store, whatever the
traversal order, that page comes before every page whose `Order` is greater than 0. -/
theorem c9_order_defaults_to_zero (object spec : List (String × Value))
    (hspec : NestedMap object "spec" = NestedMapResult.found spec)
    (horder : ∀ n, index spec "order" ≠ Value.int64 n) :
    ∃ page, convertToBlogPage (Obj.unstructured object) = Except.ok page ∧
      page.Order = 0 ∧
      ∀ (srt : SortImpl) (ord : RangeOrder BlogPage) (s : Store)
        (i j : Fin (s.GetAllPages srt ord).length),
        (s.GetAllPages srt ord).get i = page → 0 < ((s.GetAllPages srt ord).get j).Order →
          i < j := by
  have hzero : asInt64 (index spec "order") = 0 := by
    cases hv : index spec "order" with
    | int64 n => exact absurd hv (horder n)
    | null => rfl
    | bool b => rfl
    | str x => rfl
    | float64 bits => rfl
    | list xs => rfl
    | map fields => rfl
  refine ⟨_, convertToBlogPage_of_spec object spec hspec, hzero, ?_⟩
  intro srt ord s i j hi hj
  have hsorted := List.pairwise_iff_get.1 (Store.getAllPages_sorted srt ord s)
  have hio : ((s.GetAllPages srt ord).get i).Order = 0 := by rw [hi]; exact hzero
  rcases lt_trichotomy i j with h | h | h
  · exact h
  · subst h
    omega
  · have := hsorted j i h
    omega

/-- C9 as amended at a concrete input: the page record with id `a` and no `order`. -/
theorem c9_order_defaults_to_zero_witness :
    ∃ page, convertToBlogPage recPageNoOrder = Except.ok page ∧
      page.Order = 0 ∧
      ∀ (srt : SortImpl) (ord : RangeOrder BlogPage) (s : Store)
        (i j : Fin (s.GetAllPages srt ord).length),
        (s.GetAllPages srt ord).get i = page → 0 < ((s.GetAllPages srt ord).get j).Order →
          i < j :=
  c9_order_defaults_to_zero [("spec", Value.map [("id", Value.str "a")])]
    [("id", Value.str "a")] rfl (fun n h => by simp [index] at h)

/-! ## C10 -/

/-- C10: for a record with a spec and a parsable `authoredDate`, `convertToBlogPost` succeeds
whatever `updatedDate` is; `UpdatedDate` is the parsed timestamp when `updatedDate` is a
non-empty string that parses (any string that parses, when the parser rejects the empty string
as the RFC3339 one does), and is absent when `updatedDate` is missing, is not a string, is the
empty string, or does not parse. -/
theorem c10_updated_date_is_best_effort (parse : String → Option Time)
    (object spec : List (String × Value)) (str : String) (t : Time)
    (hspec : NestedMap object "spec" = NestedMapResult.found spec)
    (hdate : index spec "authoredDate" = Value.str str) (hparse : parse str = some t) :
    ∃ post, convertToBlogPost parse (Obj.unstructured object) = Except.ok post ∧
      post.AuthoredDate = t ∧
      (∀ u tu, index spec "updatedDate" = Value.str u → u ≠ "" → parse u = some tu →
        post.UpdatedDate = some tu) ∧
      (parse "" = none → ∀ u tu, index spec "updatedDate" = Value.str u → parse u = some tu →
        post.UpdatedDate = some tu) ∧
      (spec.find? (fun e => e.1 == "updatedDate") = none → post.UpdatedDate = none) ∧
      ((∀ u, index spec "updatedDate" ≠ Value.str u) → post.UpdatedDate = none) ∧
      (index spec "updatedDate" = Value.str "" → post.UpdatedDate = none) ∧
      (∀ u, index spec "updatedDate" = Value.str u → parse u = none →
        post.UpdatedDate = none) := by
  have hset : ∀ u tu, index spec "updatedDate" = Value.str u → u ≠ "" → parse u = some tu →
      extractUpdatedDate parse (index spec "updatedDate") = some tu := by
    intro u tu hu hne hp
    simp [hu, extractUpdatedDate, hne, parseDate, hp]
  have hnot : (∀ u, index spec "updatedDate" ≠ Value.str u) →
      extractUpdatedDate parse (index spec "updatedDate") = none := by
    intro h
    cases hv : index spec "updatedDate" with
    | str u => exact absurd hv (h u)
    | null => rfl
    | bool b => rfl
    | int64 n => rfl
    | float64 bits => rfl
    | list xs => rfl
    | map fields => rfl
  refine ⟨_, convertToBlogPost_of_date parse object spec str t hspec hdate hparse, rfl, hset,
    ?_, ?_, hnot, ?_, ?_⟩
  · intro hempty u tu hu hp
    refine hset u tu hu ?_ hp
    rintro rfl
    rw [hempty] at hp
    exact absurd hp (by simp)
  · intro habsent
    apply hnot
    intro u hu
    simp [index, habsent] at hu
  · intro hu
    simp [hu, extractUpdatedDate]
  · intro u hu hp
    simp [hu, extractUpdatedDate, parseDate, hp]

/-- C10 at a concrete input: a record whose `updatedDate` is the string `yesterday` converts,
with no `UpdatedDate`. -/
theorem c10_updated_date_is_best_effort_witness :
    ∃ post, convertToBlogPost parseUtcSeconds recBadUpdated = Except.ok post ∧
      post.AuthoredDate = ⟨1704067200000000000⟩ ∧ post.UpdatedDate = none := by
  obtain ⟨post, hpost, hdate, _, _, _, _, _, hbad⟩ :=
    c10_updated_date_is_best_effort parseUtcSeconds
      [("spec", Value.map [("id", Value.str "p1"),
        ("authoredDate", Value.str "2024-01-01T00:00:00Z"),
        ("updatedDate", Value.str "yesterday")])]
      [("id", Value.str "p1"), ("authoredDate", Value.str "2024-01-01T00:00:00Z"),
        ("updatedDate", Value.str "yesterday")]
      "2024-01-01T00:00:00Z" ⟨1704067200000000000⟩ rfl rfl (by decide)
  exact ⟨post, hpost, hdate, hbad "yesterday" rfl (by decide)⟩

/-! ## C11 -/

theorem stringElements_eq_filterMap (xs : List Value) :
    stringElements xs = xs.filterMap stringOf := by
  induction xs with
  | nil => rfl
  | cons v rest ih =>
    cases v <;> simp [stringElements, stringOf, ih]

theorem map_str_filterMap_sublist (xs : List Value) :
    ((xs.filterMap stringOf).map Value.str).Sublist xs := by
  induction xs with
  | nil => exact List.Sublist.slnil
  | cons v rest ih =>
    cases v with
    | str x =>
      simp only [List.filterMap_cons, stringOf, List.map_cons]
      exact ih.cons₂ _
    | null => simpa [List.filterMap_cons, stringOf] using ih.cons _
    | bool b => simpa [List.filterMap_cons, stringOf] using ih.cons _
    | int64 n => simpa [List.filterMap_cons, stringOf] using ih.cons _
    | float64 bits => simpa [List.filterMap_cons, stringOf] using ih.cons _
    | list ys => simpa [List.filterMap_cons, stringOf] using ih.cons _
    | map fields => simpa [List.filterMap_cons, stringOf] using ih.cons _

theorem convertToBlogPost_ok_tags (parse : String → Option Time) (obj : Obj) (post : BlogPost)
    (hok : convertToBlogPost parse obj = Except.ok post) :
    ∃ object spec, obj = Obj.unstructured object ∧
      NestedMap object "spec" = NestedMapResult.found spec ∧
      post.Tags = extractTags (index spec "tags") := by
  cases obj with
  | other => simp [convertToBlogPost] at hok
  | unstructured object =>
    cases hN : NestedMap object "spec" with
    | notFound => simp [convertToBlogPost, hN] at hok
    | failed => simp [convertToBlogPost, hN] at hok
    | found spec =>
      refine ⟨object, spec, rfl, hN, ?_⟩
      simp only [convertToBlogPost, hN] at hok
      cases hd : parseDate parse (index spec "authoredDate") with
      | error e => simp [hd] at hok
      | ok t =>
        simp only [hd, Except.ok.injEq] at hok
        rw [← hok]

/-- C11: when a record converts successfully it is an unstructured object with a spec, and the
`Tags` of the post are the string elements of `spec.tags` in their order, duplicates kept and
the other elements passed over (so `Tags` is a subsequence of `spec.tags`); `Tags` is empty when
`spec.tags` is absent or is not a sequence. -/
theorem c11_tags_are_the_string_elements (parse : String → Option Time) (obj : Obj)
    (post : BlogPost) (hok : convertToBlogPost parse obj = Except.ok post) :
    ∃ object spec, obj = Obj.unstructured object ∧
      NestedMap object "spec" = NestedMapResult.found spec ∧
      (∀ xs, index spec "tags" = Value.list xs →
        post.Tags = xs.filterMap stringOf ∧ (post.Tags.map Value.str).Sublist xs) ∧
      (spec.find? (fun e => e.1 == "tags") = none → post.Tags = []) ∧
      ((∀ xs, index spec "tags" ≠ Value.list xs) → post.Tags = []) := by
  obtain ⟨object, spec, hobj, hspec, htags⟩ := convertToBlogPost_ok_tags parse obj post hok
  have hnot : (∀ xs, index spec "tags" ≠ Value.list xs) → post.Tags = [] := by
    intro h
    rw [htags]
    cases hv : index spec "tags" with
    | list xs => exact absurd hv (h xs)
    | null => rfl
    | bool b => rfl
    | int64 n => rfl
    | float64 bits => rfl
    | str x => rfl
    | map fields => rfl
  refine ⟨object, spec, hobj, hspec, ?_, ?_, hnot⟩
  · intro xs hxs
    have hT : post.Tags = xs.filterMap stringOf := by
      rw [htags, hxs]
      exact stringElements_eq_filterMap xs
    exact ⟨hT, hT ▸ map_str_filterMap_sublist xs⟩
  · intro habsent
    apply hnot
    intro xs hxs
    simp [index, habsent] at hxs

/-- C11 at a concrete input: the tags `[go, 3, k8s, go]` become `[go, k8s, go]`. -/
theorem c11_tags_are_the_string_elements_witness :
    convertToBlogPost parseUtcSeconds recMixedTags =
        Except.ok (mkPost "p1" "" ["go", "k8s", "go"] 1704067200) ∧
      ∃ object spec, recMixedTags = Obj.unstructured object ∧
        NestedMap object "spec" = NestedMapResult.found spec ∧
        (∀ xs, index spec "tags" = Value.list xs →
          (mkPost "p1" "" ["go", "k8s", "go"] 1704067200).Tags = xs.filterMap stringOf ∧
            ((mkPost "p1" "" ["go", "k8s", "go"] 1704067200).Tags.map Value.str).Sublist xs) ∧
        (spec.find? (fun e => e.1 == "tags") = none →
          (mkPost "p1" "" ["go", "k8s", "go"] 1704067200).Tags = []) ∧
        ((∀ xs, index spec "tags" ≠ Value.list xs) →
          (mkPost "p1" "" ["go", "k8s", "go"] 1704067200).Tags = []) :=
  ⟨rfl, c11_tags_are_the_string_elements parseUtcSeconds recMixedTags
    (mkPost "p1" "" ["go", "k8s", "go"] 1704067200) rfl⟩

/-! ## C12 -/

theorem GoMap.mem_keys_set {V : Type} (m : GoMap V) (k : String) (v : V) (x : String) :
    x ∈ (m.set k v).entries.map Prod.fst ↔ x = k ∨ x ∈ m.entries.map Prod.fst := by
  simp only [GoMap.set, GoMap.others, List.map_cons, List.mem_cons, List.mem_map,
    List.mem_filter, bne_iff_ne, ne_eq]
  constructor
  · rintro (h | ⟨e, ⟨he, _⟩, rfl⟩)
    · exact Or.inl h
    · exact Or.inr ⟨e, he, rfl⟩
  · rintro (h | ⟨e, he, rfl⟩)
    · exact Or.inl h
    · by_cases hk : e.1 = k
      · exact Or.inl hk
      · exact Or.inr ⟨e, ⟨he, hk⟩, rfl⟩

theorem Store.mem_keys_addTags (m : GoMap Unit) (tags : List String) (x : String) :
    x ∈ (Store.addTags m tags).entries.map Prod.fst ↔ x ∈ tags ∨ x ∈ m.entries.map Prod.fst := by
  induction tags generalizing m with
  | nil => simp [Store.addTags]
  | cons t rest ih =>
    have hstep : Store.addTags m (t :: rest) = Store.addTags (m.set t ()) rest := rfl
    rw [hstep, ih, GoMap.mem_keys_set, List.mem_cons]
    constructor
    · rintro (h | h | h)
      · exact Or.inl (Or.inr h)
      · exact Or.inl (Or.inl h)
      · exact Or.inr h
    · rintro ((h | h) | h)
      · exact Or.inr (Or.inl h)
      · exact Or.inl h
      · exact Or.inr (Or.inr h)

theorem Store.mem_keys_foldl_addTags (posts : List BlogPost) (m : GoMap Unit) (x : String) :
    x ∈ (posts.foldl (fun acc post => Store.addTags acc post.Tags) m).entries.map Prod.fst ↔
      (∃ post ∈ posts, x ∈ post.Tags) ∨ x ∈ m.entries.map Prod.fst := by
  induction posts generalizing m with
  | nil => simp
  | cons p rest ih =>
    rw [List.foldl_cons, ih, Store.mem_keys_addTags]
    constructor
    · rintro (⟨q, hq, hx⟩ | h | h)
      · exact Or.inl ⟨q, List.mem_cons_of_mem _ hq, hx⟩
      · exact Or.inl ⟨p, List.mem_cons_self _ _, h⟩
      · exact Or.inr h
    · rintro (⟨q, hq, hx⟩ | h)
      · rcases List.mem_cons.1 hq with rfl | hq
        · exact Or.inr (Or.inl hx)
        · exact Or.inl ⟨q, hq, hx⟩
      · exact Or.inr (Or.inr h)

theorem Store.mem_keys_foldl_author (posts : List BlogPost) (m : GoMap Unit) (x : String) :
    x ∈ (posts.foldl (fun acc post => acc.set post.Author ()) m).entries.map Prod.fst ↔
      (∃ post ∈ posts, post.Author = x) ∨ x ∈ m.entries.map Prod.fst := by
  induction posts generalizing m with
  | nil => simp
  | cons p rest ih =>
    rw [List.foldl_cons, ih, GoMap.mem_keys_set]
    constructor
    · rintro (⟨q, hq, hx⟩ | h | h)
      · exact Or.inl ⟨q, List.mem_cons_of_mem _ hq, hx⟩
      · exact Or.inl ⟨p, List.mem_cons_self _ _, h.symm⟩
      · exact Or.inr h
    · rintro (⟨q, hq, hx⟩ | h)
      · rcases List.mem_cons.1 hq with rfl | hq
        · exact Or.inr (Or.inl hx.symm)
        · exact Or.inl ⟨q, hq, hx⟩
      · exact Or.inr (Or.inr h)

theorem Store.getAllTags_nodup (ordPosts : RangeOrder BlogPost) (ordTags : RangeOrder Unit)
    (s : Store) : (s.GetAllTags ordPosts ordTags).Nodup := by
  unfold Store.GetAllTags
  exact ((ordTags.perm _).map Prod.fst).nodup_iff.2 (GoMap.nodupKeys _)

theorem Store.getAllAuthors_nodup (ordPosts : RangeOrder BlogPost)
    (ordAuthors : RangeOrder Unit) (s : Store) : (s.GetAllAuthors ordPosts ordAuthors).Nodup := by
  unfold Store.GetAllAuthors
  exact ((ordAuthors.perm _).map Prod.fst).nodup_iff.2 (GoMap.nodupKeys _)

theorem Store.mem_getAllTags (ordPosts : RangeOrder BlogPost) (ordTags : RangeOrder Unit)
    (s : Store) (x : String) :
    x ∈ s.GetAllTags ordPosts ordTags ↔ ∃ post ∈ s.posts.values, x ∈ post.Tags := by
  unfold Store.GetAllTags
  rw [((ordTags.perm _).map Prod.fst).mem_iff, Store.mem_keys_foldl_addTags]
  have hv : ∀ post, post ∈ (ordPosts.visit s.posts.entries).map Prod.snd ↔
      post ∈ s.posts.values := fun post => ((ordPosts.perm _).map Prod.snd).mem_iff
  simp [GoMap.empty, hv]

theorem Store.mem_getAllAuthors (ordPosts : RangeOrder BlogPost) (ordAuthors : RangeOrder Unit)
    (s : Store) (x : String) :
    x ∈ s.GetAllAuthors ordPosts ordAuthors ↔ ∃ post ∈ s.posts.values, post.Author = x := by
  unfold Store.GetAllAuthors
  rw [((ordAuthors.perm _).map Prod.fst).mem_iff, Store.mem_keys_foldl_author]
  have hv : ∀ post, post ∈ (ordPosts.visit s.posts.entries).map Prod.snd ↔
      post ∈ s.posts.values := fun post => ((ordPosts.perm _).map Prod.snd).mem_iff
  simp [GoMap.empty, hv]

/-- C12: in a reachable store, whatever the traversal orders, `GetAllTags()` holds no string
twice and holds a string exactly when it is among the `Tags` of a post the store holds, and
`GetAllAuthors()` holds no string twice and holds a string exactly when it is the `Author` of a
post the store holds. -/
theorem c12_tags_and_authors_are_the_distinct_ones (ordPosts ordPosts2 : RangeOrder BlogPost)
    (ordTags ordAuthors : RangeOrder Unit) (s : Store) (hs : Reachable s) :
    (s.GetAllTags ordPosts ordTags).Nodup ∧
      (∀ t, t ∈ s.GetAllTags ordPosts ordTags ↔
        ∃ post, s.GetPost post.ID = some post ∧ t ∈ post.Tags) ∧
      (s.GetAllAuthors ordPosts2 ordAuthors).Nodup ∧
      ∀ a, a ∈ s.GetAllAuthors ordPosts2 ordAuthors ↔
        ∃ post, s.GetPost post.ID = some post ∧ post.Author = a := by
  refine ⟨Store.getAllTags_nodup _ _ s, ?_, Store.getAllAuthors_nodup _ _ s, ?_⟩
  · intro t
    rw [Store.mem_getAllTags]
    constructor
    · rintro ⟨post, hp, ht⟩
      exact ⟨post, (hs.mem_posts_values post).1 hp, ht⟩
    · rintro ⟨post, hp, ht⟩
      exact ⟨post, (hs.mem_posts_values post).2 hp, ht⟩
  · intro a
    rw [Store.mem_getAllAuthors]
    constructor
    · rintro ⟨post, hp, ha⟩
      exact ⟨post, (hs.mem_posts_values post).1 hp, ha⟩
    · rintro ⟨post, hp, ha⟩
      exact ⟨post, (hs.mem_posts_values post).2 hp, ha⟩

/-- C12 at a concrete input: with `p1` (tags `[go, k8s]`, author `alice`) and `p2` (tags `[go]`,
author `bob`) stored, the tag `go` is listed once. -/
theorem c12_tags_and_authors_are_the_distinct_ones_witness :
    Reachable p1p2Store ∧
      p1p2Store.GetAllTags (RangeOrder.asListed BlogPost) (RangeOrder.asListed Unit) =
        ["k8s", "go"] ∧
      p1p2Store.GetAllAuthors (RangeOrder.asListed BlogPost) (RangeOrder.backwards Unit) =
        ["bob", "alice"] ∧
      (p1p2Store.GetAllTags (RangeOrder.asListed BlogPost) (RangeOrder.asListed Unit)).Nodup :=
  ⟨Reachable.addPost _ (Reachable.addPost _ Reachable.init), by decide, by decide,
    (c12_tags_and_authors_are_the_distinct_ones (RangeOrder.asListed BlogPost)
      (RangeOrder.asListed BlogPost) (RangeOrder.asListed Unit) (RangeOrder.backwards Unit)
      p1p2Store (Reachable.addPost _ (Reachable.addPost _ Reachable.init))).1⟩

/-! ## C13 -/

theorem GoMap.eq_of_entries_eq {V : Type} {m₁ m₂ : GoMap V} (h : m₁.entries = m₂.entries) :
    m₁ = m₂ := by
  cases m₁
  cases m₂
  cases h
  rfl

theorem GoMap.delete_of_not_key {V : Type} (m : GoMap V) (k : String)
    (hk : k ∉ m.entries.map Prod.fst) : m.delete k = m := by
  apply GoMap.eq_of_entries_eq
  show m.entries.filter (fun e => e.1 != k) = m.entries
  rw [List.filter_eq_self]
  intro e he
  have hne : e.1 ≠ k := fun h => hk (h ▸ List.mem_map_of_mem Prod.fst he)
  simpa using hne

theorem GoMap.get_eq_none_iff {V : Type} (m : GoMap V) (k : String) :
    m.get k = none ↔ k ∉ m.entries.map Prod.fst := by
  simp only [GoMap.get, Option.map_eq_none', List.find?_eq_none, List.mem_map, not_exists,
    not_and]
  constructor
  · intro h e he hek
    exact h e he (by simpa using hek)
  · intro h e he hek
    exact h e he (by simpa using hek)

/-- C13: `DeletePost(id)` for an id that is not a key of the post collection (equivalently, one
that `GetPost` does not find) returns the store it was given, posts and pages alike, so
`GetAllPosts()` is the same before and after; and `DeletePage(id)` for an id that is not a key
of the page collection returns the store it was given.  Both are total functions. -/
theorem c13_delete_of_absent_id_is_a_no_op (s : Store) (id : String) :
    (id ∉ s.posts.entries.map Prod.fst →
        s.DeletePost id = s ∧
          ∀ (srt : SortImpl) (ord : RangeOrder BlogPost),
            (s.DeletePost id).GetAllPosts srt ord = s.GetAllPosts srt ord) ∧
      (s.GetPost id = none → s.DeletePost id = s) ∧
      (id ∉ s.pages.entries.map Prod.fst → s.DeletePage id = s) ∧
      (s.GetPage id = none → s.DeletePage id = s) := by
  have hpost : id ∉ s.posts.entries.map Prod.fst → s.DeletePost id = s := by
    intro hk
    unfold Store.DeletePost
    rw [GoMap.delete_of_not_key _ _ hk]
  have hpage : id ∉ s.pages.entries.map Prod.fst → s.DeletePage id = s := by
    intro hk
    unfold Store.DeletePage
    rw [GoMap.delete_of_not_key _ _ hk]
  refine ⟨fun hk => ⟨hpost hk, fun srt ord => by rw [hpost hk]⟩, ?_, hpage, ?_⟩
  · intro h
    exact hpost ((GoMap.get_eq_none_iff _ _).1 h)
  · intro h
    exact hpage ((GoMap.get_eq_none_iff _ _).1 h)

/-- C13 at a concrete input: deleting the id `ghost`, never added, from the store that holds
`p1`. -/
theorem c13_delete_of_absent_id_is_a_no_op_witness :
    p1Store.GetPost "ghost" = none ∧ p1Store.DeletePost "ghost" = p1Store ∧
      p1Store.GetPage "ghost" = none ∧ p1Store.DeletePage "ghost" = p1Store :=
  ⟨by decide, (c13_delete_of_absent_id_is_a_no_op p1Store "ghost").2.1 (by decide), by decide,
    (c13_delete_of_absent_id_is_a_no_op p1Store "ghost").2.2.2 (by decide)⟩

/-! ## C14 -/

theorem eq_of_perm_of_sorted_distinct {α : Type} (key : α → Int) {l₁ l₂ : List α}
    (hp : l₁.Perm l₂) (h₁ : l₁.Pairwise (fun a b => key a ≤ key b))
    (h₂ : l₂.Pairwise (fun a b => key a ≤ key b)) (hnd : (l₁.map key).Nodup) : l₁ = l₂ := by
  have hnd₂ : (l₂.map key).Nodup := (hp.map key).nodup_iff.1 hnd
  have strict : ∀ l : List α, l.Pairwise (fun a b => key a ≤ key b) → (l.map key).Nodup →
      l.Pairwise (fun a b => key a < key b) := by
    intro l hl hn
    have hne : l.Pairwise (fun a b => key a ≠ key b) := List.pairwise_map.1 hn
    exact List.Pairwise.imp₂ (fun a b hle hneq => lt_of_le_of_ne hle hneq) hl hne
  haveI : IsAntisymm α (fun a b => key a < key b) :=
    ⟨fun a b hab hba => absurd hab (not_lt_of_lt hba)⟩
  exact List.eq_of_perm_of_sorted hp (strict l₁ h₁ hnd) (strict l₂ h₂ hnd₂)

/-- C14, the claim fails: the stores reached by inserting the pages `a` and `b` of equal order
in the two possible orders hold the same pages, yet under the same traversal `GetAllPages()`
returns `[b, a]` for one and `[a, b]` for the other, and for one and the same store the two
traversals give the two sequences; the same happens to `GetAllPosts()` with two posts authored
at the same instant. -/
theorem c14_ties_follow_the_traversal_counterexample :
    tiedStoreAB.pages.values.Perm tiedStoreBA.pages.values ∧
      tiedStoreAB.GetAllPages goInsertionSort (RangeOrder.asListed BlogPage) =
        [mkPage "b" 0, mkPage "a" 0] ∧
      tiedStoreBA.GetAllPages goInsertionSort (RangeOrder.asListed BlogPage) =
        [mkPage "a" 0, mkPage "b" 0] ∧
      tiedStoreAB.GetAllPages goInsertionSort (RangeOrder.backwards BlogPage) =
        [mkPage "a" 0, mkPage "b" 0] ∧
      tiedPostsXY.posts.values.Perm tiedPostsYX.posts.values ∧
      tiedPostsXY.GetAllPosts goInsertionSort (RangeOrder.asListed BlogPost) =
        [mkPost "y" "bob" [] 1704067200, mkPost "x" "alice" [] 1704067200] ∧
      tiedPostsYX.GetAllPosts goInsertionSort (RangeOrder.asListed BlogPost) =
        [mkPost "x" "alice" [] 1704067200, mkPost "y" "bob" [] 1704067200] :=
  ⟨List.Perm.swap _ _ _, by decide, by decide, by decide, List.Perm.swap _ _ _, by decide,
    by decide⟩

/-- C14 as amended: for two stores that hold the same pages (respectively posts), whatever the
traversal orders, `GetAllPages()` (respectively `GetAllPosts()`) of the one is a rearrangement
of that of the other, and the two are the same sequence when no two of the pages have equal
`Order` (no two of the posts have equal `AuthoredDate`). -/
theorem c14_same_sequence_without_ties (srt : SortImpl) (s₁ s₂ : Store)
    (ordPages₁ ordPages₂ : RangeOrder BlogPage) (ordPosts₁ ordPosts₂ : RangeOrder BlogPost)
    (hpages : s₁.pages.values.Perm s₂.pages.values)
    (hposts : s₁.posts.values.Perm s₂.posts.values) :
    (s₁.GetAllPages srt ordPages₁).Perm (s₂.GetAllPages srt ordPages₂) ∧
      ((s₁.pages.values.map BlogPage.Order).Nodup →
        s₁.GetAllPages srt ordPages₁ = s₂.GetAllPages srt ordPages₂) ∧
      (s₁.GetAllPosts srt ordPosts₁).Perm (s₂.GetAllPosts srt ordPosts₂) ∧
      ((s₁.posts.values.map BlogPost.AuthoredDate).Nodup →
        s₁.GetAllPosts srt ordPosts₁ = s₂.GetAllPosts srt ordPosts₂) := by
  have hpg : (s₁.GetAllPages srt ordPages₁).Perm (s₂.GetAllPages srt ordPages₂) :=
    ((Store.getAllPages_perm srt ordPages₁ s₁).trans hpages).trans
      (Store.getAllPages_perm srt ordPages₂ s₂).symm
  have hps : (s₁.GetAllPosts srt ordPosts₁).Perm (s₂.GetAllPosts srt ordPosts₂) :=
    ((Store.getAllPosts_perm srt ordPosts₁ s₁).trans hposts).trans
      (Store.getAllPosts_perm srt ordPosts₂ s₂).symm
  have hpostSorted : ∀ (ord : RangeOrder BlogPost) (s : Store),
      (s.GetAllPosts srt ord).Pairwise
        (fun a b => -a.AuthoredDate.unixNano ≤ -b.AuthoredDate.unixNano) := by
    intro ord s
    refine List.Pairwise.imp ?_ (Store.getAllPosts_sorted srt ord s)
    intro a b hab
    simp only [Time.After, decide_eq_false_iff_not] at hab
    omega
  refine ⟨hpg, ?_, hps, ?_⟩
  · intro hnd
    refine eq_of_perm_of_sorted_distinct BlogPage.Order hpg
      (Store.getAllPages_sorted srt ordPages₁ s₁) (Store.getAllPages_sorted srt ordPages₂ s₂) ?_
    exact ((Store.getAllPages_perm srt ordPages₁ s₁).map BlogPage.Order).nodup_iff.2 hnd
  · intro hnd
    refine eq_of_perm_of_sorted_distinct (fun p => -p.AuthoredDate.unixNano) hps
      (hpostSorted ordPosts₁ s₁) (hpostSorted ordPosts₂ s₂) ?_
    have hdates : ((s₁.GetAllPosts srt ordPosts₁).map BlogPost.AuthoredDate).Nodup :=
      ((Store.getAllPosts_perm srt ordPosts₁ s₁).map BlogPost.AuthoredDate).nodup_iff.2 hnd
    have hinj : Function.Injective (fun t : Time => -t.unixNano) := by
      intro t u htu
      cases t
      cases u
      simp only [neg_inj] at htu
      rw [htu]
    have := hdates.map hinj
    rwa [List.map_map] at this

/-- C14 as amended at a concrete input: the pages `a`, `b`, `c` of orders 2, 1, 0 inserted as
`a, b, c` and the same store traversed the other way. -/
theorem c14_same_sequence_without_ties_witness :
    (abcStore.pages.values.map BlogPage.Order).Nodup ∧
      abcStore.GetAllPages goInsertionSort (RangeOrder.asListed BlogPage) =
        abcStore.GetAllPages goInsertionSort (RangeOrder.backwards BlogPage) :=
  ⟨by decide,
    (c14_same_sequence_without_ties goInsertionSort abcStore abcStore
      (RangeOrder.asListed BlogPage) (RangeOrder.backwards BlogPage)
      (RangeOrder.asListed BlogPost) (RangeOrder.asListed BlogPost)
      (List.Perm.refl _) (List.Perm.refl _)).2.1 (by decide)⟩

end Bloggernetes
